import Mathlib

/-!
# Verification of the video-stitcher backend core

Shallow embedding of the algorithmic core of the `reco-project/video-stitcher`
backend (audio cross-correlation synchronization, feature-match filtering,
transcode orchestration/retry, the per-match state record and its update
helpers, startup recovery, cancellation) together with theorems checking the
specification's claims against the embedded code.

Machine integers and floats of the Python source are modelled as `ℚ`
(exact rational idealization); Python dicts as association lists; fallible
code as `Except`; the external tools (ffmpeg, scipy, OpenCV RANSAC) as
explicit function parameters whose contracts appear as hypotheses.
-/

set_option maxRecDepth 8000

namespace VideoStitcher

/-! ## Python dict value model (for `app/utils/match_helpers.py`)

A JSON-ish value: Python `None` is `Value.null`; nested dicts are
association lists preserving insertion order, as Python dicts do. -/

inductive Value where
  | null : Value
  | str (s : String) : Value
  | num (q : ℚ) : Value
  | boolean (b : Bool) : Value
  | dict (d : List (String × Value)) : Value

/-- Python `value is None` test. -/
def Value.isNull : Value → Bool
  | .null => true
  | _ => false

/-- Python `d.get(k)` / `k in d` support: first binding of `k`. -/
def dictGet (d : List (String × Value)) (k : String) : Option Value :=
  match d with
  | [] => none
  | (k', v) :: rest => if k' = k then some v else dictGet rest k

/-- Python `d[k] = v`: replace the existing binding in place, else append. -/
def dictSet (d : List (String × Value)) (k : String) (v : Value) : List (String × Value) :=
  match d with
  | [] => [(k, v)]
  | (k', v') :: rest => if k' = k then (k', v) :: rest else (k', v') :: dictSet rest k v

/-- The `for key, value in kwargs.items(): if value is not None:
    match_data[field][key] = value` loop shared by `update_processing` and
`update_transcode` in `app/utils/match_helpers.py`.  Writing a key into a
non-dict value (Python `TypeError`) is modelled as `Except.error`. -/
def applyUpdateKwargs (field : String) :
    List (String × Value) → List (String × Value) → Except String (List (String × Value))
  | md, [] => .ok md
  | md, (k, v) :: rest =>
    if v.isNull then applyUpdateKwargs field md rest
    else
      match dictGet md field with
      | some (.dict d) => applyUpdateKwargs field (dictSet md field (.dict (dictSet d k v))) rest
      | _ => .error "TypeError"

/-- `app/utils/match_helpers.py`, `update_processing`:
creates an empty `processing` sub-dict when the key is absent, then writes
every kwarg whose value is not `None`. -/
def update_processing (md : List (String × Value)) (kwargs : List (String × Value)) :
    Except String (List (String × Value)) :=
  let md1 := if (dictGet md "processing").isSome then md else dictSet md "processing" (.dict [])
  applyUpdateKwargs "processing" md1 kwargs

/-- `app/utils/match_helpers.py`, `update_transcode`:
creates an empty `transcode` sub-dict when the key is absent **or is None**,
then writes every kwarg whose value is not `None`. -/
def update_transcode (md : List (String × Value)) (kwargs : List (String × Value)) :
    Except String (List (String × Value)) :=
  let md1 :=
    match dictGet md "transcode" with
    | none => dictSet md "transcode" (.dict [])
    | some .null => dictSet md "transcode" (.dict [])
    | some _ => md
  applyUpdateKwargs "transcode" md1 kwargs

/-- Lookup of a key inside the sub-dict stored at `field` (e.g. the value of
`match_data["processing"]["status"]`); `none` when the sub-record is absent
or not a dict. -/
def subGet (field : String) (md : List (String × Value)) (k : String) : Option Value :=
  match dictGet md field with
  | some (.dict d) => dictGet d k
  | _ => none

theorem dictGet_dictSet (d : List (String × Value)) (k : String) (v : Value) (k' : String) :
    dictGet (dictSet d k v) k' = if k = k' then some v else dictGet d k' := by
  induction d with
  | nil => simp [dictSet, dictGet]
  | cons hd tl ih =>
    obtain ⟨kh, vh⟩ := hd
    by_cases hk : kh = k
    · subst hk
      by_cases hk' : kh = k'
      · subst hk'
        simp [dictSet, dictGet]
      · simp [dictSet, dictGet, hk']
    · by_cases hk' : kh = k'
      · subst hk'
        simp [dictSet, dictGet, hk, Ne.symm hk]
      · simp [dictSet, dictGet, hk, hk', ih]

theorem applyUpdateKwargs_spec (field : String) (kwargs md md' : List (String × Value))
    (h : applyUpdateKwargs field md kwargs = .ok md') :
    (∀ k, k ≠ field → dictGet md' k = dictGet md k) ∧
    (∀ k, (∀ v, (k, v) ∈ kwargs → v.isNull = true) → subGet field md' k = subGet field md k) ∧
    (∀ k v, subGet field md k = some v →
      ∃ w, subGet field md' k = some w ∧ (w = v ∨ ((k, w) ∈ kwargs ∧ w.isNull = false))) := by
  induction kwargs generalizing md with
  | nil =>
    simp only [applyUpdateKwargs, Except.ok.injEq] at h
    subst h
    refine ⟨fun _ _ => rfl, fun _ _ => rfl, fun k v hv => ⟨v, hv, Or.inl rfl⟩⟩
  | cons kv rest ih =>
    obtain ⟨k0, v0⟩ := kv
    by_cases hnull : v0.isNull = true
    · simp only [applyUpdateKwargs, hnull, if_pos] at h
      obtain ⟨h1, h2, h3⟩ := ih md h
      refine ⟨h1, ?_, ?_⟩
      · intro k hk
        exact h2 k (fun v hv => hk v (List.mem_cons_of_mem _ hv))
      · intro k v hv
        obtain ⟨w, hw, hcase⟩ := h3 k v hv
        exact ⟨w, hw, hcase.imp id (fun ⟨hmem, hnn⟩ => ⟨List.mem_cons_of_mem _ hmem, hnn⟩)⟩
    · simp only [applyUpdateKwargs, hnull, if_neg, Bool.false_eq_true, not_false_iff] at h
      cases hmd : dictGet md field with
      | none => rw [hmd] at h; exact absurd h (by simp)
      | some val =>
        cases val with
        | dict d =>
          rw [hmd] at h
          obtain ⟨h1, h2, h3⟩ := ih _ h
          have hset : ∀ k, subGet field (dictSet md field (.dict (dictSet d k0 v0))) k =
              dictGet (dictSet d k0 v0) k := by
            intro k
            simp [subGet, dictGet_dictSet]
          refine ⟨?_, ?_, ?_⟩
          · intro k hk
            rw [h1 k hk, dictGet_dictSet]
            simp [Ne.symm hk]
          · intro k hk
            have hk0 : k ≠ k0 := by
              intro hEq
              subst hEq
              exact absurd (hk v0 (List.mem_cons_self _ _)) (by simp [hnull])
            rw [h2 k (fun v hv => hk v (List.mem_cons_of_mem _ hv)), hset,
              dictGet_dictSet]
            simp [subGet, hmd, Ne.symm hk0]
          · intro k v hv
            simp only [subGet, hmd] at hv
            by_cases hk0 : k0 = k
            · subst hk0
              have hmid : subGet field (dictSet md field (.dict (dictSet d k0 v0))) k0 =
                  some v0 := by
                rw [hset, dictGet_dictSet]
                simp
              obtain ⟨w, hw, hcase⟩ := h3 k0 v0 hmid
              refine ⟨w, hw, Or.inr ?_⟩
              rcases hcase with hEq | ⟨hmem, hnn⟩
              · subst hEq
                exact ⟨List.mem_cons_self _ _, by simpa using hnull⟩
              · exact ⟨List.mem_cons_of_mem _ hmem, hnn⟩
            · have hmid : subGet field (dictSet md field (.dict (dictSet d k0 v0))) k =
                  some v := by
                rw [hset, dictGet_dictSet]
                simp [hk0, hv]
              obtain ⟨w, hw, hcase⟩ := h3 k v hmid
              exact ⟨w, hw, hcase.imp id (fun ⟨hmem, hnn⟩ => ⟨List.mem_cons_of_mem _ hmem, hnn⟩)⟩
        | null => rw [hmd] at h; exact absurd h (by simp)
        | str s => rw [hmd] at h; exact absurd h (by simp)
        | num q => rw [hmd] at h; exact absurd h (by simp)
        | boolean b => rw [hmd] at h; exact absurd h (by simp)

/-- C10: for both dict-update helpers (`update_processing`, `update_transcode`
in `app/utils/match_helpers.py`), a kwarg whose value is `None` leaves the
stored value of that key unchanged, no existing field is removed or nulled
out (only non-None kwargs are written), and every other key of the record is
unchanged. -/
theorem c10_update_helpers_ignore_none (md kwargs md' : List (String × Value)) :
    (update_processing md kwargs = .ok md' →
      (∀ k, k ≠ "processing" → dictGet md' k = dictGet md k) ∧
      (∀ k, (∀ v, (k, v) ∈ kwargs → v.isNull = true) →
        subGet "processing" md' k = subGet "processing" md k) ∧
      (∀ k v, subGet "processing" md k = some v →
        ∃ w, subGet "processing" md' k = some w ∧
          (w = v ∨ ((k, w) ∈ kwargs ∧ w.isNull = false)))) ∧
    (update_transcode md kwargs = .ok md' →
      (∀ k, k ≠ "transcode" → dictGet md' k = dictGet md k) ∧
      (∀ k, (∀ v, (k, v) ∈ kwargs → v.isNull = true) →
        subGet "transcode" md' k = subGet "transcode" md k) ∧
      (∀ k v, subGet "transcode" md k = some v →
        ∃ w, subGet "transcode" md' k = some w ∧
          (w = v ∨ ((k, w) ∈ kwargs ∧ w.isNull = false)))) := by
  constructor
  · intro h
    unfold update_processing at h
    by_cases hpres : (dictGet md "processing").isSome
    · simp only [hpres, if_pos] at h
      exact applyUpdateKwargs_spec "processing" kwargs md md' h
    · simp only [hpres, if_neg, Bool.false_eq_true, not_false_iff] at h
      obtain ⟨h1, h2, h3⟩ :=
        applyUpdateKwargs_spec "processing" kwargs (dictSet md "processing" (.dict [])) md' h
      have habs : dictGet md "processing" = none := by
        cases hd : dictGet md "processing" with
        | none => rfl
        | some v => rw [hd] at hpres; simp at hpres
      refine ⟨?_, ?_, ?_⟩
      · intro k hk
        rw [h1 k hk, dictGet_dictSet]
        simp [Ne.symm hk]
      · intro k hk
        rw [h2 k hk]
        simp [subGet, dictGet_dictSet, habs, dictGet]
      · intro k v hv
        simp [subGet, habs] at hv
  · intro h
    unfold update_transcode at h
    cases hd : dictGet md "transcode" with
    | none =>
      rw [hd] at h
      obtain ⟨h1, h2, h3⟩ :=
        applyUpdateKwargs_spec "transcode" kwargs (dictSet md "transcode" (.dict [])) md' h
      refine ⟨?_, ?_, ?_⟩
      · intro k hk
        rw [h1 k hk, dictGet_dictSet]
        simp [Ne.symm hk]
      · intro k hk
        rw [h2 k hk]
        simp [subGet, dictGet_dictSet, hd, dictGet]
      · intro k v hv
        simp [subGet, hd] at hv
    | some val =>
      cases val with
      | null =>
        rw [hd] at h
        obtain ⟨h1, h2, h3⟩ :=
          applyUpdateKwargs_spec "transcode" kwargs (dictSet md "transcode" (.dict [])) md' h
        refine ⟨?_, ?_, ?_⟩
        · intro k hk
          rw [h1 k hk, dictGet_dictSet]
          simp [Ne.symm hk]
        · intro k hk
          rw [h2 k hk]
          simp [subGet, dictGet_dictSet, hd, dictGet]
        · intro k v hv
          simp [subGet, hd] at hv
      | dict d => rw [hd] at h; exact applyUpdateKwargs_spec "transcode" kwargs md md' h
      | str s => rw [hd] at h; exact applyUpdateKwargs_spec "transcode" kwargs md md' h
      | num q => rw [hd] at h; exact applyUpdateKwargs_spec "transcode" kwargs md md' h
      | boolean b => rw [hd] at h; exact applyUpdateKwargs_spec "transcode" kwargs md md' h

/-- Witness for C10: an update with `status="error"` and `step=None` keeps the
previously stored `step` value. -/
theorem c10_update_helpers_ignore_none_witness :
    subGet "processing"
        [("processing", Value.dict [("step", Value.str "s"), ("status", Value.str "error")])]
        "step" =
      subGet "processing" [("processing", Value.dict [("step", Value.str "s")])] "step" :=
  ((c10_update_helpers_ignore_none
      [("processing", Value.dict [("step", Value.str "s")])]
      [("status", Value.str "error"), ("step", Value.null)]
      [("processing", Value.dict [("step", Value.str "s"), ("status", Value.str "error")])]).1
    (by rfl)).2.1 "step" (by
      intro v hv
      simp only [List.mem_cons, List.mem_singleton, Prod.mk.injEq] at hv
      rcases hv with ⟨hk, _⟩ | ⟨⟨_, hv⟩ | hfalse⟩
      · exact absurd hk (by decide)
      · subst hv; rfl
      · exact absurd hfalse (by simp))

/-! ## Trim-point computation (C7)

`_stack_videos` in `app/services/transcoding.py`:
`video1_trim = max(0, offset)`, `video2_trim = max(0, -offset)`. -/

def video1Trim (offset : ℚ) : ℚ := max 0 offset

def video2Trim (offset : ℚ) : ℚ := max 0 (-offset)

/-- C7: at most one input video is trimmed, the trim equals the absolute
offset, a positive offset trims only the first video, a negative offset only
the second, and a zero offset trims neither. -/
theorem c7_trim_points (offset : ℚ) :
    (0 < offset → video1Trim offset = offset ∧ video2Trim offset = 0) ∧
    (offset < 0 → video2Trim offset = -offset ∧ video1Trim offset = 0) ∧
    (offset = 0 → video1Trim offset = 0 ∧ video2Trim offset = 0) ∧
    (video1Trim offset = 0 ∨ video2Trim offset = 0) ∧
    video1Trim offset + video2Trim offset = |offset| := by
  unfold video1Trim video2Trim
  rcases lt_trichotomy offset 0 with h | h | h
  · refine ⟨fun h' => absurd h' (not_lt.mpr h.le), ?_, fun h' => absurd h' h.ne, ?_, ?_⟩
    · exact fun _ => ⟨max_eq_right (by linarith), max_eq_left h.le⟩
    · exact Or.inl (max_eq_left h.le)
    · rw [max_eq_left h.le, max_eq_right (by linarith), abs_of_neg h]
      ring
  · subst h
    simp
  · refine ⟨?_, fun h' => absurd h' (not_lt.mpr h.le), fun h' => absurd h'.symm h.ne, ?_, ?_⟩
    · exact fun _ => ⟨max_eq_right h.le, max_eq_left (by linarith)⟩
    · exact Or.inr (max_eq_left (by linarith))
    · rw [max_eq_right h.le, max_eq_left (by linarith), abs_of_pos h]
      ring

/-- Witness for C7 at offset `+0.3`. -/
theorem c7_trim_points_witness :
    video1Trim (3/10) = 3/10 ∧ video2Trim (3/10) = 0 :=
  ((c7_trim_points (3/10)).1 (by norm_num))

/-! ## The per-match persisted record (Job State Machine data)

The Pydantic `MatchModel` used by the routers (with `processing`,
`transcode`, `src` fields and `update_processing`/`update_transcode`/
`get_status` methods) is not under `src/`; only its callers
(`app/main.py`, `app/routers/processing.py`), its tests
(`tests/test_match_processing_fields.py`) and the dict-level helpers in
`app/utils/match_helpers.py` are.  The structures below are modelled from
the spec accordingly. -/

/-- Modelled from the spec: the `processing` sub-record of a Match —
"state machine snapshot — status, step, human message, started_at,
completed_at, error_code, error_message" (§3). -/
structure ProcessingState where
  status : Option String
  step : Option String
  message : Option String
  started_at : Option String
  completed_at : Option String
  error_code : Option String
  error_message : Option String
deriving DecidableEq

/-- Modelled from the spec: the `transcode` sub-record of a Match —
"last known encode metrics — progress, fps, speed, current_time,
total_duration, encoder name, computed audio offset" (§3). -/
structure TranscodeMetrics where
  progress : Option ℚ
  fps : Option ℚ
  speed : Option String
  current_time : Option ℚ
  total_duration : Option ℚ
  encoder : Option String
  offset_seconds : Option ℚ
deriving DecidableEq

/-- Modelled from the spec: the Match aggregate root (§3), restricted to the
fields the checked claims touch. -/
structure MatchRec where
  id : String
  processing : Option ProcessingState
  transcode : Option TranscodeMetrics
  src : Option String
deriving DecidableEq

/-- A keyword argument that was passed as `None` leaves the old value. -/
def keepSome {α : Type} (new old : Option α) : Option α :=
  match new with
  | some v => some v
  | none => old

def emptyProcessing : ProcessingState :=
  ⟨none, none, none, none, none, none, none⟩

def emptyTranscode : TranscodeMetrics :=
  ⟨none, none, none, none, none, none, none⟩

/-- Modelled from the spec: `MatchModel.update_processing` — "a single
apply-update method per sub-record ... never free-form maps" (§9); keys
passed as `None` leave the stored values unchanged, matching the dict-level
`update_processing` helper in `app/utils/match_helpers.py`. -/
def MatchRec.updateProcessing (m : MatchRec)
    (status step message startedAt completedAt errorCode errorMessage : Option String) :
    MatchRec :=
  let p := m.processing.getD emptyProcessing
  { m with
    processing := some
      { status := keepSome status p.status
        step := keepSome step p.step
        message := keepSome message p.message
        started_at := keepSome startedAt p.started_at
        completed_at := keepSome completedAt p.completed_at
        error_code := keepSome errorCode p.error_code
        error_message := keepSome errorMessage p.error_message } }

/-- Modelled from the spec: `MatchModel.update_transcode`, analogous to
`MatchRec.updateProcessing` for the encode-metrics sub-record. -/
def MatchRec.updateTranscode (m : MatchRec)
    (progress fps : Option ℚ) (speed : Option String)
    (currentTime totalDuration : Option ℚ) (encoder : Option String)
    (offsetSeconds : Option ℚ) : MatchRec :=
  let t := m.transcode.getD emptyTranscode
  { m with
    transcode := some
      { progress := keepSome progress t.progress
        fps := keepSome fps t.fps
        speed := keepSome speed t.speed
        current_time := keepSome currentTime t.current_time
        total_duration := keepSome totalDuration t.total_duration
        encoder := keepSome encoder t.encoder
        offset_seconds := keepSome offsetSeconds t.offset_seconds } }

/-- Modelled from the spec: `MatchModel.get_status` — the persisted status,
defaulting to `pending` (mirrors `get_processing_status` in
`app/utils/match_helpers.py`). -/
def MatchRec.getStatus (m : MatchRec) : String :=
  match m.processing with
  | some p => p.status.getD "pending"
  | none => "pending"

/-! ## Python `round(x, n)` (banker's rounding), exact-rational idealization -/

/-- Round to the nearest integer, ties to even (Python `round`). -/
def roundHalfEven (x : ℚ) : ℤ :=
  let f := ⌊x⌋
  let frac := x - f
  if frac < 1/2 then f
  else if 1/2 < frac then f + 1
  else if Even f then f else f + 1

/-- Python `round(x, 2)`. -/
def round2 (x : ℚ) : ℚ := (roundHalfEven (x * 100) : ℚ) / 100

/-! ## Transcode success persistence (C1)

The success tail of `_transcode_background` in
`app/routers/processing.py` (after `transcode_and_stack` returned and no
cancellation was detected): records the output path in `src`, writes the
processing snapshot, and persists the final metrics with
`offset_seconds=round(offset, 2)`. -/

/-- Cache values read back from the in-memory progress cache on success
(`final_progress.get(...)`, absent keys give `None`). -/
structure FinalProgress where
  progress : Option ℚ
  fps : Option ℚ
  speed : Option String
  currentTime : Option ℚ
  totalDuration : Option ℚ

def transcodeSuccessUpdate (m : MatchRec) (matchId : String) (final : FinalProgress)
    (offset : ℚ) (completedAt : String) : MatchRec :=
  let m1 := { m with src := some ("videos/" ++ matchId ++ ".mp4") }
  let m2 := m1.updateProcessing (some "pending") (some "awaiting_frames")
    (some "Video ready, awaiting frame extraction") none (some completedAt) none none
  m2.updateTranscode final.progress final.fps final.speed final.currentTime
    final.totalDuration none (some (round2 offset))

def sampleTranscodingMatch : MatchRec :=
  { id := "m1"
    processing := some
      { emptyProcessing with status := some "transcoding", step := some "transcoding" }
    transcode := none
    src := none }

def emptyFinalProgress : FinalProgress := ⟨none, none, none, none, none⟩

/-- Counterexample for C1: after a successful transcode run the persisted
`processing.status` is `pending`, not `awaiting_frames`; at this concrete
input the status the claim requires does not hold. -/
theorem c1_counterexample :
    (transcodeSuccessUpdate sampleTranscodingMatch "m1" emptyFinalProgress (3/10) "t1").getStatus
        = "pending" ∧
      ("pending" : String) ≠ "awaiting_frames" :=
  ⟨rfl, by decide⟩

/-- C1 (amended): after a successful transcode run the persisted record has
`processing.status = "pending"` with `processing.step = "awaiting_frames"`,
`transcode.offset_seconds` equal to the computed offset rounded to 2
decimals, and the output video path recorded in `src`. -/
theorem c1_transcode_success_persists (m : MatchRec) (matchId : String)
    (final : FinalProgress) (offset : ℚ) (completedAt : String) :
    ∃ p t,
      (transcodeSuccessUpdate m matchId final offset completedAt).processing = some p ∧
      p.status = some "pending" ∧
      p.step = some "awaiting_frames" ∧
      (transcodeSuccessUpdate m matchId final offset completedAt).transcode = some t ∧
      t.offset_seconds = some (round2 offset) ∧
      (transcodeSuccessUpdate m matchId final offset completedAt).src =
        some ("videos/" ++ matchId ++ ".mp4") := by
  refine ⟨_, _, rfl, rfl, rfl, rfl, rfl, rfl⟩

/-! ## Startup recovery (C4)

The stale-state sweep in `lifespan` (`app/main.py`): every persisted match
whose `processing.status` is `transcoding` or `calibrating` is forced to
`error` with `error_code="INTERRUPTED"`; every other match is untouched.
The sweep is the first thing the process does at startup, before any job
can be processed. -/

def lifespanSweep (m : MatchRec) : MatchRec :=
  match m.processing with
  | some p =>
    if p.status = some "transcoding" ∨ p.status = some "calibrating" then
      m.updateProcessing (some "error") none (some "Processing interrupted (app was closed)")
        none none (some "INTERRUPTED") (some "Processing was interrupted. Please retry.")
    else m
  | none => m

def startupRecovery (ms : List MatchRec) : List MatchRec := ms.map lifespanSweep

/-- C4: the startup recovery pass forces every persisted match in status
`transcoding` or `calibrating` to `error` with `error_code="INTERRUPTED"`,
and leaves every match in any other status unchanged; it acts elementwise
on the persisted list (position `i` of the output is the swept position `i`
of the input). -/
theorem c4_startup_recovery (ms : List MatchRec) (i : ℕ) (m : MatchRec) :
    (startupRecovery ms)[i]? = (ms[i]?).map lifespanSweep ∧
    ((∃ p, m.processing = some p ∧
        (p.status = some "transcoding" ∨ p.status = some "calibrating")) →
      ∃ p', (lifespanSweep m).processing = some p' ∧
        p'.status = some "error" ∧ p'.error_code = some "INTERRUPTED") ∧
    ((∀ p, m.processing = some p →
        p.status ≠ some "transcoding" ∧ p.status ≠ some "calibrating") →
      lifespanSweep m = m) := by
  refine ⟨List.getElem?_map lifespanSweep ms i, ?_, ?_⟩
  · rintro ⟨p, hp, hact⟩
    refine ⟨⟨some "error", p.step, some "Processing interrupted (app was closed)",
      p.started_at, p.completed_at, some "INTERRUPTED",
      some "Processing was interrupted. Please retry."⟩, ?_, rfl, rfl⟩
    simp [lifespanSweep, hp, hact, MatchRec.updateProcessing, keepSome]
  · intro hinact
    cases hp : m.processing with
    | none => simp [lifespanSweep, hp]
    | some p =>
      obtain ⟨h1, h2⟩ := hinact p hp
      simp [lifespanSweep, hp, h1, h2]

/-- Witness for C4: a match stuck in `calibrating` is flipped to `error`
with code `INTERRUPTED`, and a `ready` match is untouched. -/
theorem c4_startup_recovery_witness :
    (∃ p', (lifespanSweep
        { id := "m2"
          processing := some { emptyProcessing with status := some "calibrating" }
          transcode := none
          src := none }).processing = some p' ∧
      p'.status = some "error" ∧ p'.error_code = some "INTERRUPTED") ∧
    lifespanSweep
        { id := "m3"
          processing := some { emptyProcessing with status := some "ready" }
          transcode := none
          src := none } =
      { id := "m3"
        processing := some { emptyProcessing with status := some "ready" }
        transcode := none
        src := none } :=
  ⟨(c4_startup_recovery [] 0
      { id := "m2"
        processing := some { emptyProcessing with status := some "calibrating" }
        transcode := none
        src := none }).2.1
    ⟨_, rfl, Or.inr rfl⟩,
   (c4_startup_recovery [] 0
      { id := "m3"
        processing := some { emptyProcessing with status := some "ready" }
        transcode := none
        src := none }).2.2
    (by intro p hp; cases hp; exact ⟨by decide, by decide⟩)⟩


/-! ## Cancellation (C5)

`cancel_processing` in `app/routers/processing.py`: sets the cancellation
flag, kills the encoder process (an OS effect outside the embedding), writes
`status="pending"` when the current status is active, and deletes the
progress-cache entry for the job.  The background worker maps a
`RuntimeError` whose lower-cased text contains "cancelled" to
`status="pending"` as well; any other error to `status="error"`. -/

/-- ASCII lower-casing as Python `str.lower()` performs on the ASCII error
messages involved here. -/
def charLower (c : Char) : Char :=
  if 65 ≤ c.toNat ∧ c.toNat ≤ 90 then Char.ofNat (c.toNat + 32) else c

def strLower (s : String) : String := String.mk (s.toList.map charLower)

def listStartsWith : List Char → List Char → Bool
  | [], _ => true
  | _ :: _, [] => false
  | p :: ps, c :: cs => p = c && listStartsWith ps cs

/-- Python `pat in s` substring containment. -/
def listContainsSub (pat : List Char) : List Char → Bool
  | [] => pat.isEmpty
  | c :: rest => listStartsWith pat (c :: rest) || listContainsSub pat rest

def strContainsSub (s pat : String) : Bool := listContainsSub pat.toList s.toList

/-- The state of `cancel_processing` for one job id: the persisted record
(`none` = not found, HTTP 404) and whether the in-memory progress cache
holds an entry for the id. -/
def cancelProcessing (m : Option MatchRec) (cacheHasEntry : Bool) :
    Except String (MatchRec × Bool) :=
  match m, cacheHasEntry with
  | none, _ => .error "Match not found"
  | some md, _ =>
    let md' :=
      if md.getStatus = "transcoding" ∨ md.getStatus = "calibrating" then
        md.updateProcessing (some "pending") none (some "Processing cancelled by user")
          none none none none
      else md
    .ok (md', false)

/-- The `except RuntimeError` dispatch of `_transcode_background`
(`app/routers/processing.py`): "cancelled" in the message writes `pending`,
anything else writes `error` with the message as `error_message`. -/
def handleTranscodeRuntimeError (m : MatchRec) (msg : String) : MatchRec :=
  if strContainsSub (strLower msg) "cancelled" then
    m.updateProcessing (some "pending") none (some "Processing cancelled") none none none none
  else
    m.updateProcessing (some "error") none none none none none (some msg)

/-- The message of the `RuntimeError` that `_stack_videos` raises on an
explicit cancellation (`app/services/transcoding.py`). -/
def cancellationErrorMessage : String := "Transcoding cancelled by user"

/-- C5: cancelling a match in status `transcoding` or `calibrating` leaves
the persisted status `pending` (never `error`) and removes the job's entry
from the progress cache, and a cancellation detected inside the background
transcode worker likewise writes `pending` rather than `error`. -/
theorem c5_cancellation_yields_pending :
    (∀ (md : MatchRec) (cache : Bool),
      md.getStatus = "transcoding" ∨ md.getStatus = "calibrating" →
      ∃ md', cancelProcessing (some md) cache = .ok (md', false) ∧
        md'.getStatus = "pending" ∧ md'.getStatus ≠ "error" ∧
        ∃ p, md'.processing = some p ∧ p.status = some "pending") ∧
    (∀ m : MatchRec,
      ∃ p, (handleTranscodeRuntimeError m cancellationErrorMessage).processing = some p ∧
        p.status = some "pending" ∧ p.status ≠ some "error") := by
  constructor
  · intro md cache hact
    refine ⟨md.updateProcessing (some "pending") none
      (some "Processing cancelled by user") none none none none, ?_, ?_, ?_, ?_⟩
    · simp [cancelProcessing, hact]
    · simp [MatchRec.getStatus, MatchRec.updateProcessing, keepSome]
    · have hst : (md.updateProcessing (some "pending") none
          (some "Processing cancelled by user") none none none none).getStatus = "pending" := by
        simp [MatchRec.getStatus, MatchRec.updateProcessing, keepSome]
      rw [hst]
      decide
    · exact ⟨_, rfl, rfl⟩
  · intro m
    have hc : strContainsSub (strLower cancellationErrorMessage) "cancelled" = true := by rfl
    refine ⟨{ (m.processing.getD emptyProcessing) with
        status := some "pending", message := some "Processing cancelled" }, ?_, rfl, by simp⟩
    simp only [handleTranscodeRuntimeError, hc, if_pos]
    simp [MatchRec.updateProcessing, keepSome]

/-- Witness for C5 at a concrete transcoding match. -/
theorem c5_cancellation_yields_pending_witness :
    ∃ md', cancelProcessing (some sampleTranscodingMatch) true = .ok (md', false) ∧
      md'.getStatus = "pending" ∧ md'.getStatus ≠ "error" ∧
      ∃ p, md'.processing = some p ∧ p.status = some "pending" :=
  c5_cancellation_yields_pending.1 sampleTranscodingMatch true (Or.inl rfl)

/-! ## Encoder retry loop of `_stack_videos` (C6)

`app/services/transcoding.py`: the encoder list is the detected (or
preferred) encoder followed by the software fallback `libx264` (just
`[libx264]` when the software encoder was selected in the first place).
A non-zero ffmpeg exit raises `CalledProcessError`, which is retried with
the next encoder unless the failing encoder already was `libx264`, in which
case a fatal error carrying the captured stderr is raised.  After a zero
exit the output file must exist and be non-empty.  The ffmpeg invocation is
abstracted as a function from encoder name to observed attempt outcome. -/

/-- Observation of one ffmpeg run: exit code, captured stderr, and the state
of the output file afterwards. -/
structure EncAttempt where
  exitCode : Int
  stderr : String
  outputExists : Bool
  outputSize : Nat
deriving DecidableEq

inductive StackOutcome where
  | ok : StackOutcome
  | fatalEncoding (stderr : String) : StackOutcome
  | outputMissing : StackOutcome
  | outputEmpty : StackOutcome
  | allFailed : StackOutcome
deriving DecidableEq

def encodersToTry (encoder : String) : List String :=
  if encoder = "libx264" then ["libx264"] else [encoder, "libx264"]

/-- The `for enc in encoders_to_try` loop of `_stack_videos`, returning the
list of encoders actually invoked together with the outcome. -/
def stackVideosLoop (run : String → EncAttempt) :
    List String → List String → List String × StackOutcome
  | tried, [] => (tried, .allFailed)
  | tried, enc :: rest =>
    let r := run enc
    if r.exitCode ≠ 0 then
      if enc ≠ "libx264" then stackVideosLoop run (tried ++ [enc]) rest
      else (tried ++ [enc], .fatalEncoding r.stderr)
    else if ¬ r.outputExists then (tried ++ [enc], .outputMissing)
    else if r.outputSize = 0 then (tried ++ [enc], .outputEmpty)
    else (tried ++ [enc], .ok)

def stackVideos (encoder : String) (run : String → EncAttempt) :
    List String × StackOutcome :=
  stackVideosLoop run [] (encodersToTry encoder)

/-- Outcome of a single attempt in isolation (used to phrase the fallback
contract; on a non-zero exit of `libx264` this is the fatal error). -/
def singleAttemptOutcome (r : EncAttempt) : StackOutcome :=
  if r.exitCode ≠ 0 then .fatalEncoding r.stderr
  else if ¬ r.outputExists then .outputMissing
  else if r.outputSize = 0 then .outputEmpty
  else .ok

theorem stackVideosLoop_cons (run : String → EncAttempt) (tried : List String)
    (enc : String) (rest : List String) :
    stackVideosLoop run tried (enc :: rest) =
      if (run enc).exitCode ≠ 0 then
        if enc ≠ "libx264" then stackVideosLoop run (tried ++ [enc]) rest
        else (tried ++ [enc], .fatalEncoding (run enc).stderr)
      else if ¬ (run enc).outputExists then (tried ++ [enc], .outputMissing)
      else if (run enc).outputSize = 0 then (tried ++ [enc], .outputEmpty)
      else (tried ++ [enc], .ok) := rfl

theorem stackVideosLoop_sw (run : String → EncAttempt) (tried : List String) :
    stackVideosLoop run tried ["libx264"] =
      (tried ++ ["libx264"], singleAttemptOutcome (run "libx264")) := by
  rw [stackVideosLoop_cons]
  unfold singleAttemptOutcome
  by_cases h1 : (run "libx264").exitCode ≠ 0
  · simp [h1]
  · by_cases h2 : (run "libx264").outputExists
    · by_cases h3 : (run "libx264").outputSize = 0
      · simp [h1, h2, h3]
      · simp [h1, h2, h3]
    · simp [h1, h2]

theorem stackVideos_sw (run : String → EncAttempt) :
    stackVideos "libx264" run = (["libx264"], singleAttemptOutcome (run "libx264")) := by
  unfold stackVideos encodersToTry
  rw [if_pos rfl]
  simpa using stackVideosLoop_sw run []

theorem stackVideos_hw (encoder : String) (run : String → EncAttempt)
    (hhw : encoder ≠ "libx264") :
    stackVideos encoder run =
      if (run encoder).exitCode ≠ 0 then
        ([encoder, "libx264"], singleAttemptOutcome (run "libx264"))
      else ([encoder], singleAttemptOutcome (run encoder)) := by
  unfold stackVideos encodersToTry
  rw [if_neg hhw, stackVideosLoop_cons]
  by_cases h1 : (run encoder).exitCode ≠ 0
  · rw [if_pos h1, if_pos hhw, if_pos h1]
    simpa using stackVideosLoop_sw run [encoder]
  · rw [if_neg h1, if_neg h1]
    unfold singleAttemptOutcome
    rw [if_neg h1]
    by_cases h2 : (run encoder).outputExists
    · by_cases h3 : (run encoder).outputSize = 0
      · simp [h2, h3]
      · simp [h2, h3]
    · simp [h2]

/-- C6: `_stack_videos` declares success only when the encoder exited with
code 0 and the output file exists with size > 0 (a zero-byte output fails
even on a zero exit); a non-zero exit of a hardware encoder causes exactly
one retry with `libx264`; a non-zero exit of `libx264` is fatal, carries the
captured stderr, and is not retried. -/
theorem c6_encoder_fallback (encoder : String) (run : String → EncAttempt) :
    (∀ tried, stackVideos encoder run = (tried, .ok) →
      ∃ enc, tried.getLast? = some enc ∧
        (run enc).exitCode = 0 ∧ (run enc).outputExists = true ∧ 0 < (run enc).outputSize) ∧
    (encoder ≠ "libx264" → (run encoder).exitCode ≠ 0 →
      stackVideos encoder run =
        ([encoder, "libx264"], singleAttemptOutcome (run "libx264"))) ∧
    ((run "libx264").exitCode ≠ 0 →
      stackVideos "libx264" run = (["libx264"], .fatalEncoding (run "libx264").stderr)) ∧
    (∀ enc, (run enc).exitCode = 0 → (run enc).outputExists = true →
      (run enc).outputSize = 0 → singleAttemptOutcome (run enc) = .outputEmpty) := by
  have hsingle : ∀ enc : String, singleAttemptOutcome (run enc) = .ok →
      (run enc).exitCode = 0 ∧ (run enc).outputExists = true ∧ 0 < (run enc).outputSize := by
    intro enc h
    unfold singleAttemptOutcome at h
    by_cases h1 : (run enc).exitCode ≠ 0
    · simp [h1] at h
    · by_cases h2 : (run enc).outputExists
      · by_cases h3 : (run enc).outputSize = 0
        · simp [h1, h2, h3] at h
        · exact ⟨by omega, h2, by omega⟩
      · simp [h1, h2] at h
  refine ⟨?_, ?_, ?_, ?_⟩
  · intro tried h
    by_cases hsw : encoder = "libx264"
    · subst hsw
      rw [stackVideos_sw] at h
      obtain ⟨ht, ho⟩ := Prod.mk.injEq .. ▸ h
      obtain ⟨e1, e2, e3⟩ := hsingle "libx264" ho
      exact ⟨"libx264", by rw [← ht]; rfl, e1, e2, e3⟩
    · rw [stackVideos_hw encoder run hsw] at h
      by_cases h1 : (run encoder).exitCode ≠ 0
      · rw [if_pos h1] at h
        obtain ⟨ht, ho⟩ := Prod.mk.injEq .. ▸ h
        obtain ⟨e1, e2, e3⟩ := hsingle "libx264" ho
        exact ⟨"libx264", by rw [← ht]; rfl, e1, e2, e3⟩
      · rw [if_neg h1] at h
        obtain ⟨ht, ho⟩ := Prod.mk.injEq .. ▸ h
        obtain ⟨e1, e2, e3⟩ := hsingle encoder ho
        exact ⟨encoder, by rw [← ht]; rfl, e1, e2, e3⟩
  · intro hhw hfail
    rw [stackVideos_hw encoder run hhw, if_pos hfail]
  · intro hfail
    rw [stackVideos_sw]
    unfold singleAttemptOutcome
    rw [if_pos hfail]
  · intro enc h0 hex hsz
    simp [singleAttemptOutcome, h0, hex, hsz]

/-- Witness for C6: a hardware-encoder failure is retried once with the
software encoder, whose failure is fatal with the captured stderr. -/
theorem c6_encoder_fallback_witness :
    stackVideos "h264_nvenc"
        (fun enc => if enc = "h264_nvenc" then ⟨1, "hw boom", false, 0⟩
          else ⟨1, "sw boom", false, 0⟩) =
      (["h264_nvenc", "libx264"], .fatalEncoding "sw boom") := by
  have h := (c6_encoder_fallback "h264_nvenc"
    (fun enc => if enc = "h264_nvenc" then ⟨1, "hw boom", false, 0⟩
      else ⟨1, "sw boom", false, 0⟩)).2.1 (by decide) (by decide)
  rw [h]
  rfl


/-! ## Feature matching (C2, C8)

`match_features` in `app/services/feature_matching.py`, embedded from the
ratio test onward.  The OpenCV detector/matcher output (`bf.knnMatch`) is
the abstract input `knn`; the randomized `cv2.findFundamentalMat` RANSAC is
the abstract parameter `ransac`, returning an inlier mask or `None`.
Frame dimensions are those of the resized grayscale frames. -/

/-- An OpenCV `DMatch`: indices into the two keypoint lists plus the
descriptor distance. -/
structure DMatch where
  queryIdx : ℕ
  trainIdx : ℕ
  distance : ℚ
deriving DecidableEq

/-- Keypoint positions and frame dimensions entering the filter stage. -/
structure MFParams where
  kp1 : List (ℚ × ℚ)
  kp2 : List (ℚ × ℚ)
  wL : ℚ
  hL : ℚ
  wR : ℚ
  hR : ℚ
  minMatches : ℕ
deriving DecidableEq

/-- Lowe ratio test over the knn pairs: keep `m` of a 2-element pair when
`m.distance < 0.7 * n.distance`. -/
def goodMatchesOf (knn : List (List DMatch)) : List DMatch :=
  knn.filterMap fun pr =>
    match pr with
    | [m, n] => if m.distance < 7/10 * n.distance then some m else none
    | _ => none

/-- `sorted(good_matches, key=lambda x: x.distance)`. -/
def sortByDistance (ms : List DMatch) : List DMatch :=
  ms.mergeSort fun a b => decide (a.distance ≤ b.distance)

/-- The geometric overlap filter of `match_features`: left point at or right
of `0.4*w_left`, right point at or left of `0.4*w_right`, both vertical
positions within `[0.2*h, 0.8*h]`. -/
def overlapKeep (P : MFParams) (m : DMatch) : Bool :=
  let p1 := P.kp1.getD m.queryIdx (0, 0)
  let p2 := P.kp2.getD m.trainIdx (0, 0)
  decide (4/10 * P.wL ≤ p1.1 ∧ p2.1 ≤ 4/10 * P.wR ∧
    2/10 * P.hL ≤ p1.2 ∧ p1.2 ≤ 8/10 * P.hL ∧
    2/10 * P.hR ≤ p2.2 ∧ p2.2 ≤ 8/10 * P.hR)

def filteredOf (P : MFParams) (good : List DMatch) : List DMatch :=
  good.filter (overlapKeep P)

/-- The fallback: when fewer than `min_matches` pairs survive the filter,
use the 30 best (distance-sorted) ratio-test matches unfiltered. -/
def afterFallback (P : MFParams) (good : List DMatch) : List DMatch :=
  let f := filteredOf P good
  if f.length < P.minMatches then good.take 30 else f

/-- numpy boolean-mask indexing `xs[mask]`. -/
def maskFilter {α : Type} : List α → List Bool → List α
  | [], _ => []
  | _ :: _, [] => []
  | x :: xs, b :: bs => if b then x :: maskFilter xs bs else maskFilter xs bs

/-- The two `ValueError`s of `match_features` that report an insufficient
match count, each carrying the achieved count and the required minimum. -/
inductive MFError where
  | insufficientFound (achieved required : ℕ) : MFError
  | insufficientRansac (achieved required : ℕ) : MFError
deriving DecidableEq

/-- The f-string message of each error (both include the achieved count). -/
def MFError.message : MFError → String
  | .insufficientFound n k =>
    "Insufficient matches found: " ++ (toString n ++ (" < " ++ toString k))
  | .insufficientRansac n k =>
    "Insufficient matches after RANSAC: " ++ (toString n ++ (" < " ++ toString k))

structure MFResult where
  leftPoints : List (ℚ × ℚ)
  rightPoints : List (ℚ × ℚ)
  numMatches : ℕ
  confidence : ℚ
deriving DecidableEq

/-- `_normalize_to_plane_coords` with `plane_w = 1`,
`plane_h = img_h / img_w`. -/
def normalizeToPlane (imgW imgH : ℚ) (p : ℚ × ℚ) : ℚ × ℚ :=
  ((p.1 / imgW - 1/2) * 1, (p.2 / imgH - 1/2) * (imgH / imgW))

/-- Python `round(x, 3)`. -/
def round3 (x : ℚ) : ℚ := (roundHalfEven (x * 1000) : ℚ) / 1000

/-- The `if len(pts1) >= 8: F, mask = cv2.findFundamentalMat(...)` stage:
apply the RANSAC inlier mask to both point lists and the match list when a
mask is produced. -/
def ransacStage (ransac : List (ℚ × ℚ) → List (ℚ × ℚ) → Option (List Bool))
    (fm0 : List DMatch) (pts1 pts2 : List (ℚ × ℚ)) :
    List (ℚ × ℚ) × List (ℚ × ℚ) × List DMatch :=
  if 8 ≤ pts1.length then
    match ransac pts1 pts2 with
    | some mask => (maskFilter pts1 mask, maskFilter pts2 mask, maskFilter fm0 mask)
    | none => (pts1, pts2, fm0)
  else (pts1, pts2, fm0)

/-- The surviving matches after filter + fallback (`filtered_matches`). -/
def mfFm0 (P : MFParams) (knn : List (List DMatch)) : List DMatch :=
  afterFallback P (sortByDistance (goodMatchesOf knn))

/-- `pts1`: left-image coordinates of the surviving matches. -/
def mfPts1 (P : MFParams) (fm : List DMatch) : List (ℚ × ℚ) :=
  fm.map fun m => P.kp1.getD m.queryIdx (0, 0)

/-- `pts2`: right-image coordinates of the surviving matches. -/
def mfPts2 (P : MFParams) (fm : List DMatch) : List (ℚ × ℚ) :=
  fm.map fun m => P.kp2.getD m.trainIdx (0, 0)

/-- Point lists and match list after the RANSAC stage. -/
def mfStep (P : MFParams) (knn : List (List DMatch))
    (ransac : List (ℚ × ℚ) → List (ℚ × ℚ) → Option (List Bool)) :
    List (ℚ × ℚ) × List (ℚ × ℚ) × List DMatch :=
  ransacStage ransac (mfFm0 P knn) (mfPts1 P (mfFm0 P knn)) (mfPts2 P (mfFm0 P knn))

/-- `match_features` from the ratio test onward. -/
def matchFeatures (P : MFParams) (knn : List (List DMatch))
    (ransac : List (ℚ × ℚ) → List (ℚ × ℚ) → Option (List Bool)) :
    Except MFError MFResult :=
  if (goodMatchesOf knn).length < P.minMatches then
    .error (.insufficientFound (goodMatchesOf knn).length P.minMatches)
  else if (mfStep P knn ransac).1.length < P.minMatches then
    .error (.insufficientRansac (mfStep P knn ransac).1.length P.minMatches)
  else
    .ok
      { leftPoints := (mfStep P knn ransac).1.map (normalizeToPlane P.wL P.hL)
        rightPoints := ((mfStep P knn ransac).2.1).map (normalizeToPlane P.wL P.hL)
        numMatches := ((mfStep P knn ransac).2.2).length
        confidence := round3 (min 1 (((mfStep P knn ransac).2.2).length : ℚ) / 50) }

theorem maskFilter_length_eq {α β : Type} (l1 : List α) (l2 : List β) (mask : List Bool)
    (h : l1.length = l2.length) :
    (maskFilter l1 mask).length = (maskFilter l2 mask).length := by
  induction l1 generalizing l2 mask with
  | nil =>
    cases l2 with
    | nil => cases mask <;> rfl
    | cons y ys => simp at h
  | cons x xs ih =>
    cases l2 with
    | nil => simp at h
    | cons y ys =>
      cases mask with
      | nil => rfl
      | cons b bs =>
        simp only [List.length_cons, Nat.succ.injEq] at h
        cases b with
        | true => simp [maskFilter, ih ys bs h]
        | false => simp [maskFilter, ih ys bs h]

theorem mfStep_lengths (P : MFParams) (knn : List (List DMatch))
    (ransac : List (ℚ × ℚ) → List (ℚ × ℚ) → Option (List Bool)) :
    (mfStep P knn ransac).1.length = ((mfStep P knn ransac).2.2).length := by
  unfold mfStep ransacStage
  by_cases h8 : 8 ≤ (mfPts1 P (mfFm0 P knn)).length
  · rw [if_pos h8]
    cases hr : ransac (mfPts1 P (mfFm0 P knn)) (mfPts2 P (mfFm0 P knn)) with
    | none => exact List.length_map _ _
    | some mask =>
      exact maskFilter_length_eq _ _ mask (List.length_map _ _)
  · rw [if_neg h8]
    exact List.length_map _ _

/-- C8: `match_features` never returns a result whose match count is below
`min_matches`; when fewer than `min_matches` pairs remain after the ratio
test or after RANSAC, it fails with an insufficient-matches error carrying
the achieved count (which its message renders). -/
theorem c8_never_below_min_matches (P : MFParams) (knn : List (List DMatch))
    (ransac : List (ℚ × ℚ) → List (ℚ × ℚ) → Option (List Bool)) :
    (∀ r, matchFeatures P knn ransac = .ok r → P.minMatches ≤ r.numMatches) ∧
    (∀ e, matchFeatures P knn ransac = .error e →
      ∃ n, n < P.minMatches ∧
        (e = .insufficientFound n P.minMatches ∨ e = .insufficientRansac n P.minMatches) ∧
        (∃ s, e.message = "Insufficient matches found: " ++ (toString n ++ s) ∨
          e.message = "Insufficient matches after RANSAC: " ++ (toString n ++ s))) := by
  constructor
  · intro r h
    unfold matchFeatures at h
    by_cases h1 : (goodMatchesOf knn).length < P.minMatches
    · rw [if_pos h1] at h
      exact absurd h (by simp)
    · rw [if_neg h1] at h
      by_cases h2 : (mfStep P knn ransac).1.length < P.minMatches
      · rw [if_pos h2] at h
        exact absurd h (by simp)
      · rw [if_neg h2] at h
        have hr := (Except.ok.inj h).symm
        have hlen := mfStep_lengths P knn ransac
        rw [hr]
        show P.minMatches ≤ ((mfStep P knn ransac).2.2).length
        omega
  · intro e h
    unfold matchFeatures at h
    by_cases h1 : (goodMatchesOf knn).length < P.minMatches
    · rw [if_pos h1] at h
      have he : e = .insufficientFound (goodMatchesOf knn).length P.minMatches :=
        (Except.error.inj h).symm
      exact ⟨(goodMatchesOf knn).length, h1, Or.inl he,
        " < " ++ toString P.minMatches, Or.inl (by rw [he]; rfl)⟩
    · rw [if_neg h1] at h
      by_cases h2 : (mfStep P knn ransac).1.length < P.minMatches
      · rw [if_pos h2] at h
        have he : e = .insufficientRansac (mfStep P knn ransac).1.length P.minMatches :=
          (Except.error.inj h).symm
        exact ⟨(mfStep P knn ransac).1.length, h2, Or.inr he,
          " < " ++ toString P.minMatches, Or.inr (by rw [he]; rfl)⟩
      · rw [if_neg h2] at h
        exact absurd h (by simp)

/-- Witness for C8: with too few ratio-test survivors the call fails with
the achieved count. -/
theorem c8_never_below_min_matches_witness :
    ∃ n, n < 8 ∧
      ((MFError.insufficientFound 0 8) = .insufficientFound n 8 ∨
        (MFError.insufficientFound 0 8) = .insufficientRansac n 8) ∧
      (∃ s, (MFError.insufficientFound 0 8).message =
          "Insufficient matches found: " ++ (toString n ++ s) ∨
        (MFError.insufficientFound 0 8).message =
          "Insufficient matches after RANSAC: " ++ (toString n ++ s)) :=
  (c8_never_below_min_matches
    ⟨[], [], 1920, 1080, 1920, 1080, 8⟩ [] (fun _ _ => none)).2
    (MFError.insufficientFound 0 8) (by rfl)

/-- C2: every matched pair retained by the geometric overlap filter has its
left-frame point in the right 60% of the left frame's width, its right-frame
point in the left 60% of the right frame's width, and both vertical
positions within the central 60% of frame height; when fewer than
`min_matches` pairs survive the filter, the 30 best ratio-test matches are
used unfiltered instead. -/
theorem c2_overlap_filter_and_fallback :
    (∀ (P : MFParams) (good : List DMatch) (m : DMatch), 0 ≤ P.wR →
      m ∈ filteredOf P good →
      4/10 * P.wL ≤ (P.kp1.getD m.queryIdx (0, 0)).1 ∧
      (P.kp2.getD m.trainIdx (0, 0)).1 ≤ 6/10 * P.wR ∧
      (2/10 * P.hL ≤ (P.kp1.getD m.queryIdx (0, 0)).2 ∧
        (P.kp1.getD m.queryIdx (0, 0)).2 ≤ 8/10 * P.hL) ∧
      (2/10 * P.hR ≤ (P.kp2.getD m.trainIdx (0, 0)).2 ∧
        (P.kp2.getD m.trainIdx (0, 0)).2 ≤ 8/10 * P.hR)) ∧
    (∀ (P : MFParams) (good : List DMatch),
      (filteredOf P good).length < P.minMatches →
      afterFallback P good = good.take 30) := by
  constructor
  · intro P good m hw hm
    have hk : overlapKeep P m = true := (List.mem_filter.mp hm).2
    unfold overlapKeep at hk
    simp only [decide_eq_true_eq] at hk
    obtain ⟨h1, h2, h3, h4, h5, h6⟩ := hk
    exact ⟨h1, by linarith, ⟨h3, h4⟩, h5, h6⟩
  · intro P good hlt
    unfold afterFallback
    rw [if_pos hlt]

/-- Witness for C2: a concrete retained pair satisfies all four region
conditions, and a filter shortfall triggers the 30-best fallback. -/
theorem c2_overlap_filter_and_fallback_witness :
    (4/10 * (1920 : ℚ) ≤ 800 ∧ (100 : ℚ) ≤ 6/10 * 1920 ∧
      ((2/10 * (1000 : ℚ) ≤ 500 ∧ (500 : ℚ) ≤ 8/10 * 1000) ∧
        (2/10 * (1000 : ℚ) ≤ 500 ∧ (500 : ℚ) ≤ 8/10 * 1000))) ∧
    afterFallback ⟨[(800, 500)], [(100, 500)], 1920, 1000, 1920, 1000, 8⟩
        [⟨0, 0, 1⟩] = [⟨0, 0, 1⟩] := by
  have hkeep : overlapKeep ⟨[(800, 500)], [(100, 500)], 1920, 1000, 1920, 1000, 8⟩
      ⟨0, 0, 1⟩ = true := by
    simp only [overlapKeep, decide_eq_true_eq, List.getD]
    norm_num
  have hfull : filteredOf ⟨[(800, 500)], [(100, 500)], 1920, 1000, 1920, 1000, 8⟩
      [⟨0, 0, 1⟩] = [⟨0, 0, 1⟩] := by
    simp [filteredOf, List.filter, hkeep]
  constructor
  · have h := c2_overlap_filter_and_fallback.1
      ⟨[(800, 500)], [(100, 500)], 1920, 1000, 1920, 1000, 8⟩ [⟨0, 0, 1⟩] ⟨0, 0, 1⟩
      (by norm_num) (by rw [hfull]; exact List.mem_singleton.mpr rfl)
    simpa [List.getD] using h
  · have h := c2_overlap_filter_and_fallback.2
      ⟨[(800, 500)], [(100, 500)], 1920, 1000, 1920, 1000, 8⟩ [⟨0, 0, 1⟩]
      (by rw [hfull]; norm_num)
    simpa using h


/-! ## Audio synchronization (C3)

`_compute_offset` in `app/services/transcoding.py`: read both audio tracks,
check the sample rates match, remove each signal's DC mean, compute the full
cross-correlation (`scipy.signal.correlate(a1, a2, mode="full")`), and
return `(argmax(corr) - len(a2)) / sr`.  `np.argmax` returns the first
index attaining the maximum. -/

/-- Out-of-range-safe signal access at an integer index (correlation slides
one signal past the other; absent samples contribute 0). -/
def geti (a : List ℚ) (i : ℤ) : ℚ :=
  if 0 ≤ i then a.getD i.toNat 0 else 0

/-- Entry `n` of the full cross-correlation of `a` and `b`. -/
def corrEntry (a b : List ℚ) (n : ℕ) : ℚ :=
  ∑ j in Finset.range b.length,
    geti a ((n : ℤ) + (j : ℤ) - ((b.length : ℤ) - 1)) * b.getD j 0

/-- `scipy.signal.correlate(a, b, mode="full")`:
`c[n] = sum_j a[n - (len(b) - 1) + j] * b[j]`, length `len(a)+len(b)-1`. -/
def correlateFull (a b : List ℚ) : List ℚ :=
  (List.range (a.length + b.length - 1)).map (corrEntry a b)

/-- `a - np.mean(a)`. -/
def demean (a : List ℚ) : List ℚ :=
  let mu := a.sum / (a.length : ℚ)
  a.map fun x => x - mu

/-- `np.argmax` fold: first index of the maximum. -/
def argmaxGo : List ℚ → ℕ → ℕ → ℚ → ℕ
  | [], _, bi, _ => bi
  | y :: ys, i, bi, bv => if bv < y then argmaxGo ys (i + 1) i y else argmaxGo ys (i + 1) bi bv

def argmaxFirst : List ℚ → ℕ
  | [] => 0
  | x :: xs => argmaxGo xs 1 0 x

/-- `_compute_offset`: `None` of a sample-rate mismatch is a `SyncError`;
otherwise the offset is `(argmax(corr) - len(a2)) / sr1`. -/
def computeOffset (a1 : List ℚ) (sr1 : ℕ) (a2 : List ℚ) (sr2 : ℕ) : Except String ℚ :=
  if sr1 ≠ sr2 then .error "Sample rate mismatch"
  else
    .ok ((((argmaxFirst (correlateFull (demean a1) (demean a2)) : ℤ) -
      (a2.length : ℤ) : ℤ) : ℚ) / (sr1 : ℚ))

theorem correlateFull_length (a b : List ℚ) :
    (correlateFull a b).length = a.length + b.length - 1 := by
  simp [correlateFull]

theorem correlateFull_getElem (a b : List ℚ) (n : ℕ)
    (h : n < (correlateFull a b).length) :
    (correlateFull a b)[n] = corrEntry a b n := by
  simp [correlateFull]

theorem geti_eq_sum (l : List ℚ) (k : ℤ) :
    geti l k = ∑ i in Finset.range l.length, if (i : ℤ) = k then l.getD i 0 else 0 := by
  unfold geti
  by_cases hk : 0 ≤ k
  · rw [if_pos hk]
    by_cases hlt : k.toNat < l.length
    · rw [Finset.sum_eq_single k.toNat]
      · rw [if_pos (by omega)]
      · intro i hi hne
        rw [if_neg (by simp only [Finset.mem_range] at hi; omega)]
      · intro habs
        exact absurd (Finset.mem_range.mpr hlt) habs
    · rw [List.getD_eq_default _ _ (by omega)]
      symm
      apply Finset.sum_eq_zero
      intro i hi
      simp only [Finset.mem_range] at hi
      rw [if_neg (by omega)]
  · rw [if_neg hk]
    symm
    apply Finset.sum_eq_zero
    intro i hi
    rw [if_neg (by omega)]

theorem corrEntry_double (a b : List ℚ) (n : ℕ) :
    corrEntry a b n = ∑ j in Finset.range b.length, ∑ i in Finset.range a.length,
      if (i : ℤ) = (n : ℤ) + (j : ℤ) - ((b.length : ℤ) - 1)
      then a.getD i 0 * b.getD j 0 else 0 := by
  unfold corrEntry
  refine Finset.sum_congr rfl fun j hj => ?_
  rw [geti_eq_sum, Finset.sum_mul]
  refine Finset.sum_congr rfl fun i hi => ?_
  rw [ite_mul, zero_mul]

theorem corrEntry_reverse (a b : List ℚ) (m n' : ℕ)
    (hmn : (m : ℤ) + (n' : ℤ) = (a.length : ℤ) + (b.length : ℤ) - 2) :
    corrEntry b a m = corrEntry a b n' := by
  rw [corrEntry_double, corrEntry_double, Finset.sum_comm]
  refine Finset.sum_congr rfl fun u hu => ?_
  refine Finset.sum_congr rfl fun v hv => ?_
  simp only [Finset.mem_range] at hu hv
  exact if_congr (by omega) (mul_comm _ _) rfl

theorem correlateFull_reverse (a b : List ℚ) :
    correlateFull b a = (correlateFull a b).reverse := by
  have hlen : (correlateFull b a).length = (correlateFull a b).reverse.length := by
    simp only [correlateFull_length, List.length_reverse]
    omega
  refine List.ext_getElem hlen fun m h1 h2 => ?_
  rw [List.getElem_reverse, correlateFull_getElem, correlateFull_getElem]
  rw [correlateFull_length] at h1
  rw [List.length_reverse, correlateFull_length] at h2
  exact corrEntry_reverse a b m _ (by rw [correlateFull_length]; omega)

theorem argmaxGo_no_gt (ys : List ℚ) (i bi : ℕ) (bv : ℚ)
    (h : ∀ j, j < ys.length → ¬ bv < ys.getD j 0) : argmaxGo ys i bi bv = bi := by
  induction ys generalizing i with
  | nil => rfl
  | cons y t ih =>
    have h0 : ¬ bv < y := by simpa using h 0 (by simp)
    unfold argmaxGo
    rw [if_neg h0]
    exact ih (i + 1) fun j hj => by simpa using h (j + 1) (by simpa)

theorem argmaxGo_spec (ys : List ℚ) (k : ℕ) (hk : k < ys.length)
    (huniq : ∀ j, j < ys.length → j ≠ k → ys.getD j 0 < ys.getD k 0) :
    ∀ (i bi : ℕ) (bv : ℚ), bv < ys.getD k 0 → argmaxGo ys i bi bv = i + k := by
  induction ys generalizing k with
  | nil => exact absurd hk (by simp)
  | cons y t ih =>
    intro i bi bv hbv
    cases k with
    | zero =>
      have hy : bv < y := by simpa using hbv
      unfold argmaxGo
      rw [if_pos hy]
      have : argmaxGo t (i + 1) i y = i := by
        apply argmaxGo_no_gt
        intro j hj
        have := huniq (j + 1) (by simpa) (by simp)
        simp only [List.getD_cons_succ, List.getD_cons_zero] at this
        exact not_lt.mpr this.le
      omega
    | succ k' =>
      have hk' : k' < t.length := by simpa using hk
      have hy : y < t.getD k' 0 := by
        simpa using huniq 0 (by simp) (by simp)
      have huniq' : ∀ j, j < t.length → j ≠ k' → t.getD j 0 < t.getD k' 0 := by
        intro j hj hne
        simpa using huniq (j + 1) (by simpa) (by simpa)
      have hbv' : bv < t.getD k' 0 := by simpa using hbv
      unfold argmaxGo
      by_cases hb : bv < y
      · rw [if_pos hb]
        have := ih k' hk' huniq' (i + 1) i y hy
        omega
      · rw [if_neg hb]
        have := ih k' hk' huniq' (i + 1) bi bv hbv'
        omega

theorem argmaxFirst_spec (l : List ℚ) (k : ℕ) (hk : k < l.length)
    (huniq : ∀ j, j < l.length → j ≠ k → l.getD j 0 < l.getD k 0) :
    argmaxFirst l = k := by
  cases l with
  | nil => exact absurd hk (by simp)
  | cons x xs =>
    cases k with
    | zero =>
      unfold argmaxFirst
      apply argmaxGo_no_gt
      intro j hj
      have := huniq (j + 1) (by simpa) (by simp)
      simp only [List.getD_cons_succ, List.getD_cons_zero] at this
      exact not_lt.mpr this.le
    | succ k' =>
      unfold argmaxFirst
      have hk' : k' < xs.length := by simpa using hk
      have hx : x < xs.getD k' 0 := by simpa using huniq 0 (by simp) (by simp)
      have huniq' : ∀ j, j < xs.length → j ≠ k' → xs.getD j 0 < xs.getD k' 0 := by
        intro j hj hne
        simpa using huniq (j + 1) (by simpa) (by simpa)
      have hgo := argmaxGo_spec xs k' hk' huniq' 1 0 x hx
      show argmaxGo xs 1 0 x = k' + 1
      omega

theorem getD_reverse (l : List ℚ) (j : ℕ) (h : j < l.length) :
    l.reverse.getD j 0 = l.getD (l.length - 1 - j) 0 := by
  rw [List.getD_eq_getElem?_getD, List.getD_eq_getElem?_getD]
  rw [List.getElem?_eq_getElem (by simpa using h), List.getElem?_eq_getElem (by omega)]
  simp [List.getElem_reverse]

theorem demean_length (a : List ℚ) : (demean a).length = a.length := by
  simp [demean]

/-- C3 (amended): the offset is `(argmax(corr) - len(a2)) / sr` as claimed,
but swapping the arguments does **not** exactly flip the sign: because the
code subtracts `len(a2)` instead of `len(a2) - 1`, the two offsets sum to
`-2/sr` (two samples) whenever the correlation peak is unique. -/
theorem c3_offset_swap_bias (a b : List ℚ) (sr : ℕ) (k : ℕ)
    (ha : a ≠ []) (hb : b ≠ [])
    (hk : k < (correlateFull (demean a) (demean b)).length)
    (huniq : ∀ j, j < (correlateFull (demean a) (demean b)).length → j ≠ k →
      (correlateFull (demean a) (demean b)).getD j 0 <
        (correlateFull (demean a) (demean b)).getD k 0) :
    computeOffset a sr b sr =
      .ok ((((k : ℤ) - (b.length : ℤ) : ℤ) : ℚ) / (sr : ℚ)) ∧
    ∃ y, computeOffset b sr a sr = .ok y ∧
      (((k : ℤ) - (b.length : ℤ) : ℤ) : ℚ) / (sr : ℚ) + y = -2 / (sr : ℚ) := by
  have hL : (correlateFull (demean a) (demean b)).length = a.length + b.length - 1 := by
    rw [correlateFull_length, demean_length, demean_length]
  have ha1 : 1 ≤ a.length := List.length_pos.mpr ha
  have hb1 : 1 ≤ b.length := List.length_pos.mpr hb
  have hargmax1 : argmaxFirst (correlateFull (demean a) (demean b)) = k :=
    argmaxFirst_spec _ k hk huniq
  -- the swapped correlation is the reverse, so its unique peak is mirrored
  have hrev : correlateFull (demean b) (demean a) =
      (correlateFull (demean a) (demean b)).reverse := correlateFull_reverse _ _
  have hL' : (correlateFull (demean b) (demean a)).length =
      a.length + b.length - 1 := by
    rw [correlateFull_length, demean_length, demean_length]; omega
  set L := a.length + b.length - 1 with hLdef
  have hkL : k < L := by omega
  have hargmax2 : argmaxFirst (correlateFull (demean b) (demean a)) = L - 1 - k := by
    apply argmaxFirst_spec
    · omega
    · intro j hj hne
      rw [hL'] at hj
      rw [hrev, getD_reverse _ _ (by omega), getD_reverse _ _ (by omega)]
      rw [correlateFull_length, demean_length, demean_length]
      have h1 : (a.length + b.length - 1) - 1 - (L - 1 - k) = k := by omega
      rw [h1]
      exact huniq ((a.length + b.length - 1) - 1 - j) (by omega) (by omega)
  constructor
  · unfold computeOffset
    rw [if_neg (by simp), hargmax1]
  · refine ⟨(((L - 1 - k : ℕ) : ℤ) - (a.length : ℤ) : ℤ) / (sr : ℚ), ?_, ?_⟩
    · unfold computeOffset
      rw [if_neg (by simp), hargmax2]
    · rw [div_add_div_same, ← Int.cast_add]
      have harith : ((k : ℤ) - (b.length : ℤ)) + (((L - 1 - k : ℕ) : ℤ) - (a.length : ℤ))
          = -2 := by omega
      rw [harith]
      push_cast
      ring


theorem demean_demo_1 : demean [0, 0, 1, -1] = [0, 0, 1, -1] := by
  norm_num [demean]

theorem demean_demo_2 : demean [1, -1, 0, 0] = [1, -1, 0, 0] := by
  norm_num [demean]

theorem corr_demo_1 :
    correlateFull [0, 0, 1, -1] [1, -1, 0, 0] = [0, 0, 0, 0, -1, 2, -1] := by
  show (List.range 7).map (corrEntry [0, 0, 1, -1] [1, -1, 0, 0]) = _
  norm_num [List.range_succ, corrEntry, Finset.sum_range_succ, geti, List.getD, Int.toNat]

theorem corr_demo_2 :
    correlateFull [1, -1, 0, 0] [0, 0, 1, -1] = [-1, 2, -1, 0, 0, 0, 0] := by
  show (List.range 7).map (corrEntry [1, -1, 0, 0] [0, 0, 1, -1]) = _
  norm_num [List.range_succ, corrEntry, Finset.sum_range_succ, geti, List.getD, Int.toNat]

theorem argmax_demo_1 : argmaxFirst [0, 0, 0, 0, -1, 2, -1] = 5 := by
  norm_num [argmaxFirst, argmaxGo]

theorem argmax_demo_2 : argmaxFirst [-1, 2, -1, 0, 0, 0, 0] = 1 := by
  norm_num [argmaxFirst, argmaxGo]

/-- Counterexample for C3: two valid zero-mean signals at equal sample rate
for which `offset(a, b) ≠ -offset(b, a)`: the code computes `+1` sample one
way and `-3` samples the other (the sum is two samples, not zero, because
`argmax - len(a2)` is off by one from the antisymmetric lag convention). -/
theorem c3_counterexample :
    ∃ x y, computeOffset [0, 0, 1, -1] 16000 [1, -1, 0, 0] 16000 = .ok x ∧
      computeOffset [1, -1, 0, 0] 16000 [0, 0, 1, -1] 16000 = .ok y ∧ x ≠ -y := by
  refine ⟨1/16000, -3/16000, ?_, ?_, by norm_num⟩
  · unfold computeOffset
    rw [if_neg (by norm_num), demean_demo_1, demean_demo_2, corr_demo_1, argmax_demo_1]
    norm_num
  · unfold computeOffset
    rw [if_neg (by norm_num), demean_demo_2, demean_demo_1, corr_demo_2, argmax_demo_2]
    norm_num

/-- Witness for the amended C3 at the concrete signals above. -/
theorem c3_offset_swap_bias_witness :
    computeOffset [0, 0, 1, -1] 16000 [1, -1, 0, 0] 16000 =
        .ok (((((5 : ℕ) : ℤ) - (([1, -1, 0, 0] : List ℚ).length : ℤ) : ℤ) : ℚ) /
          ((16000 : ℕ) : ℚ)) ∧
      ∃ y, computeOffset [1, -1, 0, 0] 16000 [0, 0, 1, -1] 16000 = .ok y ∧
        (((((5 : ℕ) : ℤ) - (([1, -1, 0, 0] : List ℚ).length : ℤ) : ℤ) : ℚ) /
            ((16000 : ℕ) : ℚ)) + y = -2 / ((16000 : ℕ) : ℚ) :=
  c3_offset_swap_bias [0, 0, 1, -1] [1, -1, 0, 0] 16000 5 (by simp) (by simp)
    (by rw [demean_demo_1, demean_demo_2, corr_demo_1]; norm_num)
    (by intro j hj hne
        rw [demean_demo_1, demean_demo_2, corr_demo_1] at hj ⊢
        simp only [List.length_cons, List.length_nil] at hj
        interval_cases j <;>
          simp_all [List.getD_cons_zero, List.getD_cons_succ] <;> norm_num)


/-! ## Camera pose optimization (C9)

`optimize_position` / `_minimize_sum_of_angles` in
`app/services/position_optimization.py`.  The scipy bounded Powell
minimizer is abstracted as the parameter `minimize`; it receives the two 3D
point lists (over which the code's `objective` closure computes the
float-valued sum of `arccos` angles), the bounds list, the midpoint seed
and the iteration cap, and reports success plus a parameter vector.  That a
bounded scipy minimizer returns a point inside its bounds is scipy's
documented contract and appears as a hypothesis.  `np.pi` is the IEEE
double closest to π, an exact rational. -/

/-- The double-precision value of `np.pi`: `884279719003555 * 2^-48`. -/
def npPi : ℚ := 884279719003555 / 281474976710656

structure MinimizeResult where
  success : Bool
  x : Fin 5 → ℚ

/-- Abstraction of `scipy.optimize.minimize(objective, x0, bounds=bounds,
method="Powell", options=maxiter)`: arguments are the two transformed point
sets the objective closes over, the bounds, the seed and the iteration
cap. -/
def Minimizer : Type :=
  List (ℚ × ℚ × ℚ) → List (ℚ × ℚ × ℚ) → List (ℚ × ℚ) → List ℚ → ℕ → MinimizeResult

/-- The bounds of `_minimize_sum_of_angles`, in parameter order
`x_ty, intersect, cam_d, x_rz, z_rx`. -/
def positionBounds : List (ℚ × ℚ) :=
  [(-1, 1), (0, 1), (1/10, 35/100), (-npPi, npPi), (-npPi, npPi)]

/-- `x0 = [(b[0] + b[1]) / 2 for b in bounds]`. -/
def positionX0 : List ℚ := positionBounds.map fun bd => (bd.1 + bd.2) / 2

/-- `options={"maxiter": 1000}`. -/
def positionMaxIter : ℕ := 1000

/-- `_convert_to_3d(points, "x")`: `[x, -y, 0]`. -/
def convertTo3dX (points : List (ℚ × ℚ)) : List (ℚ × ℚ × ℚ) :=
  points.map fun p => (p.1, -p.2, 0)

/-- `_convert_to_3d(points, "z")`: `[0, -y, -z]` for a point read as
`(z, y)`. -/
def convertTo3dZ (points : List (ℚ × ℚ)) : List (ℚ × ℚ × ℚ) :=
  points.map fun p => (0, -p.2, -p.1)

structure PoseParams where
  cameraAxisOffset : ℚ
  intersect : ℚ
  xTy : ℚ
  xRz : ℚ
  zRx : ℚ
deriving DecidableEq

/-- `_minimize_sum_of_angles`: run the bounded minimizer from the midpoint
seed; `None` on non-convergence, else the five named parameters. -/
def minimizeSumOfAngles (minimize : Minimizer) (xPlane zPlane : List (ℚ × ℚ × ℚ)) :
    Option PoseParams :=
  let result := minimize xPlane zPlane positionBounds positionX0 positionMaxIter
  if result.success then
    some
      { cameraAxisOffset := result.x 2
        intersect := result.x 1
        xTy := result.x 0
        xRz := result.x 3
        zRx := result.x 4 }
  else none

/-- `optimize_position`: validate inputs, convert to 3D, minimize; raise
(return no partial result) on invalid input or non-convergence. -/
def optimize_position (minimize : Minimizer) (leftPoints rightPoints : List (ℚ × ℚ)) :
    Except String PoseParams :=
  if leftPoints = [] ∨ rightPoints = [] then .error "Point lists cannot be empty"
  else if leftPoints.length ≠ rightPoints.length then .error "Point lists must have equal length"
  else
    match minimizeSumOfAngles minimize (convertTo3dX leftPoints) (convertTo3dZ rightPoints) with
    | none => .error "Position optimization failed"
    | some r => .ok r

/-- C9: the minimizer is invoked over the claimed bounds, seeded at the
midpoint of each bound, capped at 1000 iterations; empty or unequal-length
point lists and minimizer non-convergence produce an error and no partial
result; and whenever the bounded minimizer honours its bounds, each of the
five returned parameters lies within its declared bound. -/
theorem c9_optimize_position_bounds :
    positionX0 = [0, 1/2, 9/40, 0, 0] ∧
    positionBounds = [(-1, 1), (0, 1), (1/10, 35/100), (-npPi, npPi), (-npPi, npPi)] ∧
    positionMaxIter = 1000 ∧
    (∀ (minimize : Minimizer) (l r : List (ℚ × ℚ)),
      l = [] ∨ r = [] ∨ l.length ≠ r.length →
      ∃ e, optimize_position minimize l r = .error e) ∧
    (∀ (minimize : Minimizer) (l r : List (ℚ × ℚ)),
      (minimize (convertTo3dX l) (convertTo3dZ r) positionBounds positionX0
          positionMaxIter).success = false →
      ∃ e, optimize_position minimize l r = .error e) ∧
    (∀ (minimize : Minimizer) (l r : List (ℚ × ℚ)),
      l ≠ [] → r ≠ [] → l.length = r.length →
      (minimize (convertTo3dX l) (convertTo3dZ r) positionBounds positionX0
          positionMaxIter).success = true →
      (∀ i : Fin 5,
        (positionBounds.getD (i : ℕ) (0, 0)).1 ≤
          (minimize (convertTo3dX l) (convertTo3dZ r) positionBounds positionX0
            positionMaxIter).x i ∧
        (minimize (convertTo3dX l) (convertTo3dZ r) positionBounds positionX0
            positionMaxIter).x i ≤ (positionBounds.getD (i : ℕ) (0, 0)).2) →
      ∃ p, optimize_position minimize l r = .ok p ∧
        (-1 ≤ p.xTy ∧ p.xTy ≤ 1) ∧ (0 ≤ p.intersect ∧ p.intersect ≤ 1) ∧
        (1/10 ≤ p.cameraAxisOffset ∧ p.cameraAxisOffset ≤ 35/100) ∧
        (-npPi ≤ p.xRz ∧ p.xRz ≤ npPi) ∧ (-npPi ≤ p.zRx ∧ p.zRx ≤ npPi)) := by
  refine ⟨?_, rfl, rfl, ?_, ?_, ?_⟩
  · norm_num [positionX0, positionBounds, npPi]
  · intro minimize l r hbad
    rcases hbad with h | h | h
    · exact ⟨"Point lists cannot be empty",
        by unfold optimize_position; rw [if_pos (Or.inl h)]⟩
    · exact ⟨"Point lists cannot be empty",
        by unfold optimize_position; rw [if_pos (Or.inr h)]⟩
    · by_cases hl : l = [] ∨ r = []
      · exact ⟨"Point lists cannot be empty",
          by unfold optimize_position; rw [if_pos hl]⟩
      · exact ⟨"Point lists must have equal length",
          by unfold optimize_position; rw [if_neg hl, if_pos h]⟩
  · intro minimize l r hfail
    by_cases hl : l = [] ∨ r = []
    · exact ⟨"Point lists cannot be empty",
        by unfold optimize_position; rw [if_pos hl]⟩
    · by_cases hlen : l.length ≠ r.length
      · exact ⟨"Point lists must have equal length",
          by unfold optimize_position; rw [if_neg hl, if_pos hlen]⟩
      · refine ⟨"Position optimization failed", ?_⟩
        unfold optimize_position
        rw [if_neg hl, if_neg hlen]
        simp [minimizeSumOfAngles, hfail]
  · intro minimize l r hl hr hlen hsucc hbnd
    set res := minimize (convertTo3dX l) (convertTo3dZ r) positionBounds positionX0
      positionMaxIter with hres
    have hempty : ¬ (l = [] ∨ r = []) := not_or.mpr ⟨hl, hr⟩
    have hok : optimize_position minimize l r =
        .ok ⟨res.x 2, res.x 1, res.x 0, res.x 3, res.x 4⟩ := by
      unfold optimize_position
      rw [if_neg hempty, if_neg (by omega)]
      simp only [minimizeSumOfAngles, ← hres, hsucc, if_pos]
    refine ⟨⟨res.x 2, res.x 1, res.x 0, res.x 3, res.x 4⟩, hok, ?_, ?_, ?_, ?_, ?_⟩
    · simpa [positionBounds, List.getD] using hbnd 0
    · simpa [positionBounds, List.getD] using hbnd 1
    · simpa [positionBounds, List.getD] using hbnd 2
    · simpa [positionBounds, List.getD] using hbnd 3
    · simpa [positionBounds, List.getD] using hbnd 4

/-- Witness for C9 with a minimizer that converges to the seed midpoints. -/
theorem c9_optimize_position_bounds_witness :
    ∃ p, optimize_position
        (fun _ _ _ _ _ => ⟨true, ![0, 1/2, 9/40, 0, 0]⟩)
        [(1/2, 1/2)] [(1/2, 1/2)] = .ok p ∧
      (-1 ≤ p.xTy ∧ p.xTy ≤ 1) ∧ (0 ≤ p.intersect ∧ p.intersect ≤ 1) ∧
      (1/10 ≤ p.cameraAxisOffset ∧ p.cameraAxisOffset ≤ 35/100) ∧
      (-npPi ≤ p.xRz ∧ p.xRz ≤ npPi) ∧ (-npPi ≤ p.zRx ∧ p.zRx ≤ npPi) :=
  c9_optimize_position_bounds.2.2.2.2.2
    (fun _ _ _ _ _ => ⟨true, ![0, 1/2, 9/40, 0, 0]⟩)
    [(1/2, 1/2)] [(1/2, 1/2)] (by simp) (by simp) rfl rfl
    (by
      intro i
      fin_cases i <;>
        norm_num [positionBounds, List.getD, npPi, Matrix.cons_val_zero,
          Matrix.cons_val_one, Matrix.head_cons])

end VideoStitcher
